import Mathlib

/-!
# Echo v4 integration of the keploy SDK (`integrations/echo-v4.go`)

A shallow embedding of the middleware glue and of its path/query helpers.

Go strings and byte slices are modelled by `String` (a sequence of runes); Go
maps from string to string by association lists with distinct keys, updated in
place, and the order of a `range` loop over a map is an explicit list of the
map's entries. A handler is a script of calls on the `echo.Context` it is
given; a middleware maps the state of one request and the SDK handle to the
state it leaves behind. The debug output of `pathParamsEcho` (`fmt.Printf`), the
methods `Flush` and `Hijack` of `bodyDumpResponseWriter` and the goroutine
`app.Test()` started by `EchoV4` are left out.
-/

namespace integrations

/-! ## Go maps `map[string]string` -/

/-- A Go `map[string]string`: association list with distinct keys. -/
abbrev GoMap := List (String × String)

/-- Map read `v, ok := m[k]`. -/
def mapGet : GoMap → String → Option String
  | [], _ => none
  | (k', v') :: m, k => if k' = k then some v' else mapGet m k

/-- Map write `m[k] = v`. -/
def mapSet : GoMap → String → String → GoMap
  | [], k, v => [(k, v)]
  | (k', v') :: m, k, v => if k' = k then (k, v) :: m else (k', v') :: mapSet m k v

/-! ## `strings.Replace` of the Go standard library, on rune lists -/

/-- Go `strings.HasPrefix(s, sub)`. -/
def hasPrefix : List Char → List Char → Bool
  | _, [] => true
  | [], _ :: _ => false
  | c :: s, d :: sub => c == d && hasPrefix s sub

/-- Go `strings.Index(s, sub)`: index of the first instance of `sub` in `s`,
`none` for Go's `-1`. -/
def stringsIndex : List Char → List Char → Option Nat
  | [], sub => if hasPrefix [] sub then some 0 else none
  | c :: s, sub =>
    if hasPrefix (c :: s) sub then some 0 else (stringsIndex s sub).map (· + 1)

/-- The loop of Go `strings.Count` for a non-empty `sub`: count an instance,
cut the string after it, repeat. `fuel` bounds the number of rounds. -/
def countLoop (sub : List Char) : Nat → List Char → Nat
  | 0, _ => 0
  | fuel + 1, s =>
    match stringsIndex s sub with
    | none => 0
    | some i => 1 + countLoop sub fuel (s.drop (i + sub.length))

/-- Go `strings.Count(s, sub)`: number of non-overlapping instances of `sub`;
for the empty `sub`, one more than the number of runes. -/
def stringsCount (s sub : List Char) : Nat :=
  if sub.isEmpty then s.length + 1 else countLoop sub s.length s

/-- The replacement loop of Go `strings.Replace` for a non-empty `old`, running
`n` rounds on the not yet copied rest `s[start:]`: copy up to the next instance,
write `new`, skip the instance; after the last round copy what is left. -/
def replaceLoop (old new : List Char) : Nat → List Char → List Char
  | 0, rest => rest
  | n + 1, rest =>
    match stringsIndex rest old with
    | none => rest
    | some j => rest.take j ++ new ++ replaceLoop old new n (rest.drop (j + old.length))

/-- The rounds after the first of Go `strings.Replace` for the empty `old`:
copy one rune (none at the end of the string), write `new`. -/
def replaceEmptyTail (new : List Char) : Nat → List Char → List Char
  | 0, rest => rest
  | k + 1, [] => new ++ replaceEmptyTail new k []
  | k + 1, c :: rest => c :: new ++ replaceEmptyTail new k rest

/-- The replacement loop of Go `strings.Replace` for the empty `old`, `n` rounds:
the first round writes `new` at the start of the string. -/
def replaceEmptyLoop (new : List Char) : Nat → List Char → List Char
  | 0, s => s
  | k + 1, s => new ++ replaceEmptyTail new k s

/-- Go `strings.Replace(s, old, new, n)` on rune lists. -/
def replaceRunes (s old new : List Char) (n : Int) : List Char :=
  if old = new ∨ n = 0 then s
  else
    let m := stringsCount s old
    if m = 0 then s
    else
      let n' : Nat := if n < 0 ∨ (m : Int) < n then m else n.toNat
      if old.isEmpty then replaceEmptyLoop new n' s else replaceLoop old new n' s

/-- Go `strings.Replace(s, old, new, n)`. -/
def stringsReplace (s old new : String) (n : Int) : String :=
  ⟨replaceRunes s.data old.data new.data n⟩

/-! ## Path and query helpers -/

/-- The loop of `pathParamsEcho`: `result[paramNames[i]] = paramValues[i]` for
`i` from `0` to `len(paramNames) - 1`; `none` is Go's index-out-of-range panic. -/
def pathParamsLoop : List String → List String → GoMap → Option GoMap
  | [], _, result => some result
  | _ :: _, [], _ => none
  | n :: names, v :: values, result => pathParamsLoop names values (mapSet result n v)

/-- Source `pathParamsEcho`, on `c.ParamNames()` and `c.ParamValues()`. -/
def pathParamsEcho (paramNames paramValues : List String) : Option GoMap :=
  pathParamsLoop paramNames paramValues []

/-- The inner loop of `urlParamsEcho` over the values `j` of one query name. -/
def joinValues (s : String) (j : List String) : String :=
  j.foldl (fun s e => if s != "" then s ++ (", " ++ e) else e) s

/-- The outer loop of `urlParamsEcho`; `qp` lists the entries of
`c.QueryParams()` in the order the `range` loop visits them. -/
def urlParamsLoop (qp : List (String × List String)) (result : GoMap) : GoMap :=
  qp.foldl
    (fun result ij =>
      let s := match mapGet result ij.1 with
        | some v => v
        | none => ""
      mapSet result ij.1 (joinValues s ij.2))
    result

/-- Source `urlParamsEcho`. -/
def urlParamsEcho (paramNames paramValues : List String)
    (qp : List (String × List String)) : Option GoMap :=
  (pathParamsEcho paramNames paramValues).map (urlParamsLoop qp)

/-- Source `urlPathEcho`; `params` lists the entries of the map in the order the
`range` loop visits them. Every round replaces in `url`, not in `res`. -/
def urlPathEcho (url : String) (params : List (String × String)) : String :=
  params.foldl (fun _res ij => stringsReplace url ij.2 (":" ++ ij.1) (-1)) url


/-! ## Types of package `keploy` and of the frameworks the integration uses -/

/-- A recorded dependency (`models.Dependency`); its content plays no role here. -/
abbrev Dependency := String

/-- Headers `http.Header`, a map from a name to its values. -/
abbrev Header := List (String × List String)

/-- Go `http.Header.Get`: the first value of `key`, `""` when there is none.
Names are compared as they stand: the header map is taken to be keyed by the
names the code asks for (MIME canonicalisation is left out). -/
def headerGet : Header → String → String
  | [], _ => ""
  | (k, vs) :: h, key => if k = key then vs.headD "" else headerGet h key

/-- Struct `keploy.Context`, the per-request state of the SDK. -/
structure keploy.Context where
  Mode : String
  TestID : String
  Deps : List Dependency
  deriving DecidableEq, Repr

/-- Struct `keploy.HttpResp`. -/
structure keploy.HttpResp where
  StatusCode : Int
  Header : Header
  Body : String
  deriving DecidableEq, Repr

/-- Struct `keploy.HttpReq`. -/
structure keploy.HttpReq where
  Method : String
  ProtoMajor : Int
  ProtoMinor : Int
  URL : String
  URLParams : GoMap
  Header : Header
  Body : String
  deriving DecidableEq, Repr

/-- Struct `keploy.TestCaseReq`, the argument of `app.Capture`. -/
structure keploy.TestCaseReq where
  Captured : Int
  AppID : String
  URI : String
  HttpReq : keploy.HttpReq
  HttpResp : keploy.HttpResp
  Deps : List Dependency
  deriving DecidableEq, Repr

/-- A recorded test case, as far as `testMW` reads it. -/
structure keploy.TestCase where
  Deps : List Dependency
  deriving DecidableEq, Repr

/-- The SDK handle `*keploy.App`. `Get` is the lookup `app.Get(id)`, `none` for
Go's `nil`; `Deps` and `Resp` are the maps of the same names; `captured` lists
the arguments of the calls of `app.Capture` and `logged` those of
`app.Log.Error`, oldest first. -/
structure keploy.App where
  Name : String
  Get : String → Option keploy.TestCase
  Deps : String → List Dependency
  Resp : String → Option keploy.HttpResp
  captured : List keploy.TestCaseReq
  logged : List String

/-- A value of type `interface{}` kept in a context, `nil` being `none` of
`Option Val`. A `*keploy.Context` is kept by value; writes through the pointer
are the handler step `mutateKctx`. -/
inductive Val
  | kctx (c : keploy.Context)
  | other (s : String)
  deriving DecidableEq, Repr

/-- A key of a `context.Context`: a string converted to `keploy.KctxType`, or a
key of any other type. -/
inductive CtxKey
  | kctxType (key : String)
  | plain (key : String)
  deriving DecidableEq, Repr

/-- The values of a `context.Context`, read by `Value(key)`. -/
abbrev Carrier := CtxKey → Option Val

/-- Go `context.WithValue(parent, key, val)`. -/
def withValue (parent : Carrier) (key : CtxKey) (val : Option Val) : Carrier :=
  fun k => if k = key then val else parent k

/-- A request body `io.ReadCloser`: the bytes still to read and the error the
read ends with (`none` for a clean end of the stream). -/
structure Body where
  data : String
  err : Option String
  deriving DecidableEq, Repr

/-- Go `ioutil.ReadAll(body)`: the bytes read, the error, and the drained body. -/
def readAll (body : Body) : String × Option String × Body :=
  (body.data, body.err, { data := "", err := body.err })

/-- The request `*http.Request`. -/
structure http.Request where
  Method : String
  ProtoMajor : Int
  ProtoMinor : Int
  URL : String
  Path : String
  Header : Header
  Body : Option Body
  ctx : Carrier

/-- An `http.ResponseWriter`: the writer of the server, or the source's
`bodyDumpResponseWriter` around a writer, whose `io.MultiWriter` copies to the
buffer number `resBody`. -/
inductive http.ResponseWriter
  | real
  | bodyDumpResponseWriter (ResponseWriter : http.ResponseWriter) (resBody : Nat)
  deriving DecidableEq, Repr

/-- The response `*echo.Response`. -/
structure echo.Response where
  Status : Int
  Header : Header
  Committed : Bool
  Writer : http.ResponseWriter

/-- The state one request runs in: the `echo.Context` (request, response,
framework-local store, path and query parameters), the `bytes.Buffer`s in use,
the bytes and the status the client received, and the arguments of the calls of
`c.Response().Write`, oldest first. -/
structure echo.Context where
  request : http.Request
  response : echo.Response
  store : String → Option Val
  pathParams : List (String × String)
  queryParams : List (String × List String)
  buffers : List String
  wire : String
  wireStatus : Option Int
  written : List String

/-- What a handler (`echo.HandlerFunc`) does with the context it is given, step
by step, each step handing its result to the rest of the handler. -/
inductive Handler
  /-- The handler returns `err` (`none` for `nil`). -/
  | done (err : Option String)
  /-- Call `c.Response().Write(b)`; the rest is told whether the write succeeded. -/
  | write (b : String) (k : Bool → Handler)
  /-- Call `c.Response().WriteHeader(code)`. -/
  | writeHeader (code : Int) (k : Handler)
  /-- Assignment `c.Response().Status = code`. -/
  | setStatus (code : Int) (k : Handler)
  /-- Call `c.Response().Header().Set(key, value)`. -/
  | setHeader (key value : String) (k : Handler)
  /-- Call `c.Get(key)`. -/
  | get (key : String) (k : Option Val → Handler)
  /-- Call `c.Set(key, val)`. -/
  | set (key : String) (val : Option Val) (k : Handler)
  /-- Call `c.Request().Context().Value(key)`. -/
  | value (key : CtxKey) (k : Option Val → Handler)
  /-- Call `c.SetRequest(c.Request().WithContext(ctx))`, the new carrier `ctx`
  made from the current one by `f`. -/
  | withContext (f : Carrier → Carrier) (k : Handler)
  /-- Call `ioutil.ReadAll(c.Request().Body)`; the rest gets the bytes and the error. -/
  | readBody (k : String → Option String → Handler)
  /-- A write through the `*keploy.Context` found under `keploy.KCTX` in the
  request's carrier, as the SDK's dependency hooks do; nothing happens when
  there is none. -/
  | mutateKctx (f : keploy.Context → keploy.Context) (k : Handler)

/-- What the integration takes from outside: the constant `keploy.KCTX`, the
clock, the transport under the server's writer (`none`: the chunk is accepted
whole; `some q`: the write fails after `q`), echo's `HTTPErrorHandler`, and the
orders in which Go ranges over the two parameter maps. -/
structure Env where
  KCTX : String
  now : Int
  transport : String → String → Option String
  HTTPErrorHandler : String → Handler
  rangeParams : GoMap → List (String × String)
  rangeQuery : List (String × List String) → List (String × List String)

/-- What a middleware leaves behind: the request state, the SDK handle and the
error it returns to the framework. -/
structure Outcome where
  c : echo.Context
  app : Option keploy.App
  err : Option String

/-! ## The response writers -/

/-- Append `b` to the buffer number `i`. -/
def bufferWrite : List String → Nat → String → List String
  | [], _, _ => []
  | x :: bufs, 0, b => (x ++ b) :: bufs
  | x :: bufs, i + 1, b => x :: bufferWrite bufs i b

/-- Method `Write` of a writer; the flag tells whether the write succeeded.
Source `bodyDumpResponseWriter.Write` writes to its `io.MultiWriter`, which
writes to the wrapped writer and, if that took the whole chunk, to the buffer. -/
def writerWrite (env : Env) : http.ResponseWriter → String → echo.Context → echo.Context × Bool
  | .real, b, c =>
    match env.transport c.wire b with
    | none => ({ c with wire := c.wire ++ b }, true)
    | some q => ({ c with wire := c.wire ++ q }, false)
  | .bodyDumpResponseWriter w resBody, b, c =>
    match writerWrite env w b c with
    | (c', true) => ({ c' with buffers := bufferWrite c'.buffers resBody b }, true)
    | (c', false) => (c', false)

/-- Method `WriteHeader` of a writer. Source
`bodyDumpResponseWriter.WriteHeader` passes the code to the wrapped writer; the
server's writer sends the first code it is given. -/
def writerWriteHeader : http.ResponseWriter → Int → echo.Context → echo.Context
  | .real, code, c =>
    match c.wireStatus with
    | none => { c with wireStatus := some code }
    | some _ => c
  | .bodyDumpResponseWriter w _, code, c => writerWriteHeader w code c

/-- Echo's `Response.WriteHeader`. -/
def responseWriteHeader (c : echo.Context) (code : Int) : echo.Context :=
  if c.response.Committed then c
  else
    let c := { c with response := { c.response with Status := code } }
    let c := writerWriteHeader c.response.Writer code c
    { c with response := { c.response with Committed := true } }

/-- Echo's `Response.Write`. -/
def responseWrite (env : Env) (c : echo.Context) (b : String) : echo.Context × Bool :=
  let c :=
    if c.response.Committed then c
    else responseWriteHeader c (if c.response.Status = 0 then 200 else c.response.Status)
  writerWrite env c.response.Writer b c

/-- Go `http.Header.Set`. -/
def headerSet : Header → String → String → Header
  | [], key, value => [(key, [value])]
  | (k, vs) :: h, key, value =>
    if k = key then (key, [value]) :: h else (k, vs) :: headerSet h key value

/-! ## The context bridge -/

/-- Echo's own `Context.Get`, on the framework-local store. -/
def echo.Context.Get (c : echo.Context) (key : String) : Option Val :=
  c.store key

/-- Echo's own `Context.Set`, on the framework-local store. -/
def echo.Context.Set (c : echo.Context) (key : String) (val : Option Val) : echo.Context :=
  { c with store := fun k => if k = key then val else c.store k }

/-- Source `contextValue.Get`. -/
def contextValue.Get (ctx : echo.Context) (key : String) : Option Val :=
  match ctx.Get key with
  | some val => some val
  | none => ctx.request.ctx (CtxKey.kctxType key)

/-- Source `contextValue.Set`. -/
def contextValue.Set (ctx : echo.Context) (key : String) (val : Option Val) : echo.Context :=
  { ctx with request :=
      { ctx.request with ctx := withValue ctx.request.ctx (CtxKey.kctxType key) val } }

/-- Call `c.Get(key)` on the context a handler holds: the bridge `contextValue`
when `bridged`, echo's context otherwise. -/
def ctxGet (bridged : Bool) (c : echo.Context) (key : String) : Option Val :=
  if bridged then contextValue.Get c key else c.Get key

/-- Call `c.Set(key, val)` on the context a handler holds. -/
def ctxSet (bridged : Bool) (c : echo.Context) (key : String) (val : Option Val) :
    echo.Context :=
  if bridged then contextValue.Set c key val else c.Set key val

/-- Source `NewMiddlewareContextValue`: whatever context comes in, `fn` is given
the bridge around it. -/
def NewMiddlewareContextValue {α : Type} (fn : Bool → echo.Context → α) :
    Bool → echo.Context → α :=
  fun _ ctx => fn true ctx

/-! ## Running a handler -/

/-- Run a handler on the context it holds. -/
def run (env : Env) (bridged : Bool) : Handler → echo.Context → echo.Context × Option String
  | .done err, c => (c, err)
  | .write b k, c =>
    let r := responseWrite env { c with written := c.written ++ [b] } b
    run env bridged (k r.2) r.1
  | .writeHeader code k, c => run env bridged k (responseWriteHeader c code)
  | .setStatus code k, c =>
    run env bridged k { c with response := { c.response with Status := code } }
  | .setHeader key value k, c =>
    run env bridged k
      { c with response := { c.response with Header := headerSet c.response.Header key value } }
  | .get key k, c => run env bridged (k (ctxGet bridged c key)) c
  | .set key val k, c => run env bridged k (ctxSet bridged c key val)
  | .value key k, c => run env bridged (k (c.request.ctx key)) c
  | .withContext f k, c =>
    run env bridged k { c with request := { c.request with ctx := f c.request.ctx } }
  | .readBody k, c =>
    match c.request.Body with
    | none => run env bridged (k "" none) c
    | some body =>
      let r := readAll body
      run env bridged (k r.1 r.2.1) { c with request := { c.request with Body := some r.2.2 } }
  | .mutateKctx f k, c =>
    match c.request.ctx (CtxKey.kctxType env.KCTX) with
    | some (Val.kctx kc) =>
      run env bridged k
        { c with request :=
            { c.request with
              ctx := withValue c.request.ctx (CtxKey.kctxType env.KCTX) (some (Val.kctx (f kc))) } }
    | _ => run env bridged k c

/-! ## The middlewares -/

/-- The head of source `captureResp`: a new buffer `resBody`, and the response's
writer replaced by a `bodyDumpResponseWriter` that copies to it. -/
def dumpWriter (c : echo.Context) : echo.Context :=
  { c with
    buffers := c.buffers ++ [""]
    response :=
      { c.response with
        Writer := http.ResponseWriter.bodyDumpResponseWriter c.response.Writer c.buffers.length } }

/-- The middle of source `captureResp`: `if err := next(c); err != nil { c.Error(err) }`.
`c.Error` is echo's method, so the error handler gets echo's own context, not
the bridge. -/
def nextOrError (env : Env) (bridged : Bool) (c : echo.Context) (next : Handler) :
    echo.Context :=
  match (run env bridged next c).2 with
  | some err => (run env false (env.HTTPErrorHandler err) (run env bridged next c).1).1
  | none => (run env bridged next c).1

/-- Source `captureResp`. -/
def captureResp (env : Env) (bridged : Bool) (c : echo.Context) (next : Handler) :
    echo.Context × keploy.HttpResp :=
  let resBody := c.buffers.length
  let c := nextOrError env bridged (dumpWriter c) next
  (c, { StatusCode := c.response.Status, Header := c.response.Header,
        Body := c.buffers.getD resBody "" })

/-- Map write `app.Resp[id] = resp`. -/
def setResp (app : keploy.App) (id : String) (resp : keploy.HttpResp) : keploy.App :=
  { app with Resp := fun k => if k = id then some resp else app.Resp k }

/-- Source `testMW`. -/
def testMW (env : Env) (app : Option keploy.App) (next : Handler) (bridged : Bool)
    (c : echo.Context) : Outcome :=
  match app with
  | none =>
    let r := run env bridged next c
    { c := r.1, app := none, err := r.2 }
  | some app =>
    let id := headerGet c.request.Header "KEPLOY_TEST_ID"
    if id = "" then
      let r := run env bridged next c
      { c := r.1, app := some app, err := r.2 }
    else
      match app.Get id with
      | none =>
        let r := run env bridged next c
        { c := r.1, app := some app, err := r.2 }
      | some tc =>
        let c := ctxSet bridged c env.KCTX
          (some (Val.kctx { Mode := "test", TestID := id, Deps := tc.Deps }))
        let r := captureResp env bridged c next
        { c := r.1, app := some (setResp app id r.2), err := none }

/-- The second half of source `captureMW`, from the comment `// Response` on,
`reqBody` being the request body read in the first half. An error stands for a
Go panic. -/
def captureMWResponse (env : Env) (app : keploy.App) (next : Handler) (bridged : Bool)
    (c : echo.Context) (reqBody : String) : Except String Outcome :=
  let r := captureResp env bridged c next
  let c := r.1
  match c.request.ctx (CtxKey.kctxType env.KCTX) with
  | none =>
    .ok { c := c
          app := some { app with logged := app.logged ++ ["failed to get keploy context"] }
          err := none }
  | some (Val.other _) => .error "interface conversion: interface {} is not *keploy.Context"
  | some (Val.kctx deps) =>
    let names := c.pathParams.map Prod.fst
    let values := c.pathParams.map Prod.snd
    match pathParamsEcho names values,
      urlParamsEcho names values (env.rangeQuery c.queryParams) with
    | some params, some urlParams =>
      let tcr : keploy.TestCaseReq :=
        { Captured := env.now
          AppID := app.Name
          URI := urlPathEcho c.request.Path (env.rangeParams params)
          HttpReq :=
            { Method := c.request.Method
              ProtoMajor := c.request.ProtoMajor
              ProtoMinor := c.request.ProtoMinor
              URL := c.request.URL
              URLParams := urlParams
              Header := c.request.Header
              Body := reqBody }
          HttpResp := r.2
          Deps := deps.Deps }
      .ok { c := c, app := some { app with captured := app.captured ++ [tcr] }, err := none }
    | _, _ => .error "index out of range"

/-- Go `c.Request().Body = ioutil.NopCloser(bytes.NewBuffer(reqBody))`. -/
def resetBody (c : echo.Context) (reqBody : String) : echo.Context :=
  { c with request := { c.request with Body := some { data := reqBody, err := none } } }

/-- Source `captureMW`. An error stands for a Go panic. -/
def captureMW (env : Env) (app : Option keploy.App) (next : Handler) (bridged : Bool)
    (c : echo.Context) : Except String Outcome :=
  match app with
  | none =>
    let r := run env bridged next c
    .ok { c := r.1, app := none, err := r.2 }
  | some app =>
    let c := ctxSet bridged c env.KCTX
      (some (Val.kctx { Mode := "capture", TestID := "", Deps := [] }))
    let id := headerGet c.request.Header "KEPLOY_TEST_ID"
    if id ≠ "" then
      let c := ctxSet bridged c env.KCTX
        (some (Val.kctx { Mode := "test", TestID := id, Deps := app.Deps id }))
      let r := captureResp env bridged c next
      .ok { c := r.1, app := some (setResp app id r.2), err := none }
    else
      -- Request
      match c.request.Body with
      | none => captureMWResponse env app next bridged (resetBody c "") ""
      | some body =>
        let r := readAll body
        let c := { c with request := { c.request with Body := some r.2.2 } }
        match r.2.1 with
        | some err => .ok { c := c, app := some app, err := some err }
        | none => captureMWResponse env app next bridged (resetBody c r.1) r.1

/-- Source `EchoV4`, for one request, `mode` being the value of the environment
variable `KEPLOY_SDK_MODE`. The replay driver `app.Test()`, started on its own
goroutine in mode `test`, is not part of the request. -/
def EchoV4 (env : Env) (mode : String) (app : Option keploy.App) (next : Handler)
    (c : echo.Context) : Except String Outcome :=
  if mode = "test" then
    NewMiddlewareContextValue (fun b ctx => .ok (testMW env app next b ctx)) false c
  else if mode = "capture" then
    NewMiddlewareContextValue (captureMW env app next) false c
  else
    let r := run env false next c
    .ok { c := r.1, app := app, err := r.2 }

/-! ## Predicates on handlers and concrete requests -/

/-- The handler never rebinds `KCTX` in the request's context carrier: it does
not replace the carrier (`withContext`) and sets no value under the key `KCTX`. -/
def Handler.keepsCarrier (KCTX : String) : Handler → Prop
  | .done _ => True
  | .write _ k => ∀ ok, (k ok).keepsCarrier KCTX
  | .writeHeader _ k => k.keepsCarrier KCTX
  | .setStatus _ k => k.keepsCarrier KCTX
  | .setHeader _ _ k => k.keepsCarrier KCTX
  | .get _ k => ∀ v, (k v).keepsCarrier KCTX
  | .set key _ k => key ≠ KCTX ∧ k.keepsCarrier KCTX
  | .value _ k => ∀ v, (k v).keepsCarrier KCTX
  | .withContext _ _ => False
  | .readBody k => ∀ data err, (k data err).keepsCarrier KCTX
  | .mutateKctx _ k => k.keepsCarrier KCTX

/-- The in-order concatenation of a list of byte sequences. -/
def concatAll : List String → String
  | [] => ""
  | b :: bs => b ++ concatAll bs

/-- A handler that writes `"hi"` and returns no error. -/
def helloHandler : Handler :=
  .write "hi" (fun _ => .done none)

/-- An environment whose transport accepts every write and whose error handler
writes the error text. -/
def sampleEnv : Env where
  KCTX := "KeployContext"
  now := 1700000000
  transport := fun _ _ => none
  HTTPErrorHandler := fun err => .write err (fun _ => .done none)
  rangeParams := fun m => m
  rangeQuery := fun q => q

/-- A request `GET /users/7` of the route `/users/:id` with the given headers
and body, before any middleware ran. -/
def sampleCtx (header : Header) (body : Option Body) : echo.Context where
  request :=
    { Method := "GET", ProtoMajor := 1, ProtoMinor := 1, URL := "/users/7", Path := "/users/7",
      Header := header, Body := body, ctx := fun _ => none }
  response := { Status := 0, Header := [], Committed := false, Writer := .real }
  store := fun _ => none
  pathParams := [("id", "7")]
  queryParams := []
  buffers := []
  wire := ""
  wireStatus := none
  written := []

/-- An SDK handle that knows the test cases `get` and holds the dependencies
`deps`, with nothing recorded yet. -/
def sampleApp (get : String → Option keploy.TestCase) (deps : String → List Dependency) :
    keploy.App where
  Name := "sample"
  Get := get
  Deps := deps
  Resp := fun _ => none
  captured := []
  logged := []

/-- A handler that writes nothing and returns the error `boom`. -/
def failingHandler : Handler :=
  .done (some "boom")

/-- The environment `sampleEnv` with an error handler that puts a fresh context
in place of the request's one, as
`c.SetRequest(c.Request().WithContext(context.Background()))` does. -/
def resetEnv : Env :=
  { sampleEnv with HTTPErrorHandler := fun _ => .withContext (fun _ _ => none) (.done none) }

/-- What echo does with a handler when no recorder is in place: it runs the
handler on the context and hands the error the handler returns, if any, to
`HTTPErrorHandler` on echo's own context. -/
def served (env : Env) (bridged : Bool) (c : echo.Context) (next : Handler) : echo.Context :=
  match (run env bridged next c).2 with
  | some err => (run env false (env.HTTPErrorHandler err) (run env bridged next c).1).1
  | none => (run env bridged next c).1

/-- The state `c` with a recorder in place: the server's writer wrapped in a
`bodyDumpResponseWriter` that copies to the buffer number `i`, and `bufs` for
the buffers. -/
def recording (i : Nat) (bufs : List String) (c : echo.Context) : echo.Context :=
  { c with
    buffers := bufs
    response :=
      { c.response with Writer := http.ResponseWriter.bodyDumpResponseWriter .real i } }

/-- The bytes of the request body of `c`, `""` for a request without body. -/
def bodyRead (c : echo.Context) : String :=
  match c.request.Body with
  | some body => body.data
  | none => ""

/-- The request as the handler is to see it on the capture branch: the keploy
context of mode `capture` set through the bridge and the body readable again. -/
def captureContext (env : Env) (c : echo.Context) : echo.Context :=
  resetBody
    (contextValue.Set c env.KCTX
      (some (Val.kctx { Mode := "capture", TestID := "", Deps := [] })))
    (bodyRead c)

/-- The in-order concatenation of the byte sequences written to the response
between the states `c` and `c'`. -/
def writtenSince (c c' : echo.Context) : String :=
  concatAll (c'.written.drop c.written.length)

/-- What `app.Resp["x"]` holds after a middleware ran, if it ran to its end. -/
def respAtX (r : Except String Outcome) : Option keploy.HttpResp :=
  match r with
  | .ok o => o.app.bind (fun a => a.Resp "x")
  | .error _ => none

/-- The dependencies of the keploy context a middleware leaves in the carrier. -/
def depsLeft (KCTX : String) (r : Except String Outcome) : Option (List Dependency) :=
  match r with
  | .ok o =>
    match o.c.request.ctx (CtxKey.kctxType KCTX) with
    | some (Val.kctx kc) => some kc.Deps
    | _ => none
  | .error _ => none

/-! ## Reference definitions, following the wording of the specification -/

/-- The path with every non-overlapping occurrence of `old`, found from left to
right, replaced by `new`. `skip` counts the runes of the occurrence replaced
last that the scan has still to pass over. -/
def replaceEveryFrom (old new : List Char) : Nat → List Char → List Char
  | _, [] => []
  | skip + 1, _ :: s => replaceEveryFrom old new skip s
  | 0, c :: s =>
    if hasPrefix (c :: s) old then new ++ replaceEveryFrom old new (old.length - 1) s
    else c :: replaceEveryFrom old new 0 s

/-- The string `s` with every (non-overlapping, left-to-right) occurrence of
`old` replaced by `new`. -/
def replaceEvery (s old new : String) : String :=
  ⟨replaceEveryFrom old.data new.data 0 s.data⟩

/-- Entry read `v, ok := qp[name]` of the query-parameter multimap. -/
def queryGet : List (String × List String) → String → Option (List String)
  | [], _ => none
  | (k, vals) :: qp, name => if k = name then some vals else queryGet qp name

/-- The path value of `name` in a list of path parameters: the value of the
last parameter of that name. -/
def pathValue : List (String × String) → String → Option String
  | [], _ => none
  | (n, v) :: ps, name =>
    match pathValue ps name with
    | some w => some w
    | none => if n = name then some v else none

/-- Reference definition of the flattened parameters, as the specification words
it: a name that is only a path parameter maps to its path value; a name of the
query maps to the path value (if any) followed by the query values, joined with
the separator `", "`; no other name is a key. -/
def flattenRef (ps : List (String × String)) (qp : List (String × List String))
    (name : String) : Option String :=
  match queryGet qp name with
  | none => pathValue ps name
  | some vals => some (String.intercalate ", " ((pathValue ps name).toList ++ vals))

/-- The flattened parameters as the code computes them: as `flattenRef`, but the
empty strings at the head of the sequence to join are left out. -/
def flattenTrimmed (ps : List (String × String)) (qp : List (String × List String))
    (name : String) : Option String :=
  match queryGet qp name with
  | none => pathValue ps name
  | some vals =>
    some (String.intercalate ", "
      (((pathValue ps name).toList ++ vals).dropWhile (fun e => e == "")))

/-! ## Lemmas on `strings.Replace` -/

theorem hasPrefix_nil_left (sub : List Char) (h : sub ≠ []) : hasPrefix [] sub = false := by
  cases sub with
  | nil => exact absurd rfl h
  | cons d sub => rfl

theorem hasPrefix_split (s sub : List Char) (h : hasPrefix s sub = true) :
    s = sub ++ s.drop sub.length := by
  induction sub generalizing s with
  | nil => simp
  | cons d sub ih =>
    cases s with
    | nil => simp [hasPrefix] at h
    | cons c s =>
      simp only [hasPrefix, Bool.and_eq_true, beq_iff_eq] at h
      have := ih s h.2
      simp only [List.length_cons, List.drop_succ_cons, List.cons_append]
      rw [← this, h.1]

theorem replaceEveryFrom_skip (old new : List Char) (k : Nat) (s : List Char) :
    replaceEveryFrom old new k s = replaceEveryFrom old new 0 (s.drop k) := by
  induction s generalizing k with
  | nil => cases k <;> simp [replaceEveryFrom]
  | cons c s ih =>
    cases k with
    | zero => simp
    | succ k => simp only [replaceEveryFrom, List.drop_succ_cons]; exact ih k

theorem replaceEveryFrom_cons (old new : List Char) (c : Char) (s : List Char)
    (hold : old ≠ []) :
    replaceEveryFrom old new 0 (c :: s) =
      if hasPrefix (c :: s) old then new ++ replaceEveryFrom old new 0 ((c :: s).drop old.length)
      else c :: replaceEveryFrom old new 0 s := by
  cases old with
  | nil => exact absurd rfl hold
  | cons d old =>
    simp only [replaceEveryFrom, List.length_cons, Nat.add_sub_cancel, List.drop_succ_cons]
    rw [replaceEveryFrom_skip (d :: old) new old.length s]

theorem stringsIndex_none (old new : List Char) (hold : old ≠ []) (s : List Char)
    (h : stringsIndex s old = none) : replaceEveryFrom old new 0 s = s := by
  induction s with
  | nil => rfl
  | cons c s ih =>
    rw [replaceEveryFrom_cons old new c s hold]
    simp only [stringsIndex] at h
    split at h
    · simp at h
    · rename_i hp
      simp only [Option.map_eq_none'] at h
      simp [hp, ih h]

theorem stringsIndex_some (old new : List Char) (hold : old ≠ []) (s : List Char) (j : Nat)
    (h : stringsIndex s old = some j) :
    replaceEveryFrom old new 0 s =
      s.take j ++ new ++ replaceEveryFrom old new 0 (s.drop (j + old.length)) := by
  induction s generalizing j with
  | nil => simp [stringsIndex, hasPrefix_nil_left old hold] at h
  | cons c s ih =>
    rw [replaceEveryFrom_cons old new c s hold]
    simp only [stringsIndex] at h
    split at h
    · rename_i hp
      simp only [Option.some.injEq] at h
      subst h
      simp [hp]
    · rename_i hp
      simp only [Option.map_eq_some'] at h
      obtain ⟨j', hj', rfl⟩ := h
      simp only [hp, Bool.false_eq_true, if_false, List.take_succ_cons, List.cons_append]
      rw [ih j' hj']
      have : j' + 1 + old.length = (j' + old.length) + 1 := by omega
      rw [this, List.drop_succ_cons]

theorem stringsIndex_some_hasPrefix (old : List Char) (s : List Char) (j : Nat)
    (h : stringsIndex s old = some j) : hasPrefix (s.drop j) old = true := by
  induction s generalizing j with
  | nil =>
    simp only [stringsIndex] at h
    split at h
    · rename_i hp; simpa using hp
    · simp at h
  | cons c s ih =>
    simp only [stringsIndex] at h
    split at h
    · rename_i hp
      simp only [Option.some.injEq] at h
      subst h
      simpa using hp
    · simp only [Option.map_eq_some'] at h
      obtain ⟨j', hj', rfl⟩ := h
      simpa using ih j' hj'

theorem stringsIndex_some_length (old : List Char) (hold : old ≠ []) (s : List Char) (j : Nat)
    (h : stringsIndex s old = some j) : (s.drop (j + old.length)).length < s.length := by
  have hp := hasPrefix_split _ _ (stringsIndex_some_hasPrefix old s j h)
  have hlen := congrArg List.length hp
  have hpos : 0 < old.length := List.length_pos.mpr hold
  simp only [List.length_append, List.length_drop] at hlen ⊢
  omega

theorem replaceLoop_countLoop (old new : List Char) (hold : old ≠ []) (fuel : Nat) :
    ∀ s : List Char, s.length ≤ fuel →
      replaceLoop old new (countLoop old fuel s) s = replaceEveryFrom old new 0 s := by
  induction fuel with
  | zero =>
    intro s hs
    have : s = [] := List.length_eq_zero.mp (Nat.le_zero.mp hs)
    subst this
    rfl
  | succ fuel ih =>
    intro s hs
    simp only [countLoop]
    cases hidx : stringsIndex s old with
    | none => simp [replaceLoop, stringsIndex_none old new hold s hidx]
    | some j =>
      have hlt := stringsIndex_some_length old hold s j hidx
      simp only []
      rw [Nat.add_comm 1, replaceLoop]
      simp only [hidx]
      rw [ih _ (by omega), stringsIndex_some old new hold s j hidx]

theorem replaceEveryFrom_same (old : List Char) (hold : old ≠ []) (fuel : Nat) :
    ∀ s : List Char, s.length ≤ fuel → replaceEveryFrom old old 0 s = s := by
  induction fuel with
  | zero =>
    intro s hs
    have : s = [] := List.length_eq_zero.mp (Nat.le_zero.mp hs)
    subst this
    rfl
  | succ fuel ih =>
    intro s hs
    cases hidx : stringsIndex s old with
    | none => exact stringsIndex_none old old hold s hidx
    | some j =>
      have hlt := stringsIndex_some_length old hold s j hidx
      rw [stringsIndex_some old old hold s j hidx, ih _ (by omega)]
      have hp := hasPrefix_split _ _ (stringsIndex_some_hasPrefix old s j hidx)
      rw [List.drop_drop] at hp
      rw [List.append_assoc, ← hp, List.take_append_drop]

/-- Go's `strings.Replace(s, old, new, -1)` with a non-empty `old` is the
left-to-right replacement of every non-overlapping occurrence. -/
theorem replaceRunes_all (s old new : List Char) (hold : old ≠ []) :
    replaceRunes s old new (-1) = replaceEveryFrom old new 0 s := by
  unfold replaceRunes
  have hne : old.isEmpty = false := by cases old <;> simp_all
  by_cases heq : old = new
  · subst heq
    simp [replaceEveryFrom_same old hold s.length s le_rfl]
  · simp only [heq, false_or, stringsCount, hne, Bool.false_eq_true, if_false]
    simp only [show ¬ ((-1 : Int) = 0) by decide, if_false, show ((-1 : Int) < 0) by decide,
      true_or, if_true]
    split
    · rename_i h0
      have := replaceLoop_countLoop old new hold s.length s le_rfl
      rw [h0] at this
      simpa [replaceLoop] using this
    · exact replaceLoop_countLoop old new hold s.length s le_rfl

theorem replaceEvery_eq (s old new : String) (hold : old ≠ "") :
    stringsReplace s old new (-1) = replaceEvery s old new := by
  have h : old.data ≠ [] := fun h => hold (String.ext h)
  simp only [stringsReplace, replaceEvery, replaceRunes_all _ _ _ h]

/-! ## Lemmas on the parameter maps -/

theorem mapGet_mapSet (m : GoMap) (k v k' : String) :
    mapGet (mapSet m k v) k' = if k = k' then some v else mapGet m k' := by
  induction m with
  | nil => simp [mapSet, mapGet]
  | cons e m ih =>
    obtain ⟨a, b⟩ := e
    simp only [mapSet]
    by_cases h : a = k
    · subst h
      by_cases h' : a = k' <;> simp [mapGet, h']
    · by_cases h' : a = k'
      · subst h'
        simp [mapGet, h, Ne.symm h]
      · simp [mapGet, h, h', ih]

theorem pathParamsLoop_pairs (ps : List (String × String)) (r : GoMap) :
    pathParamsLoop (ps.map Prod.fst) (ps.map Prod.snd) r
      = some (ps.foldl (fun r p => mapSet r p.1 p.2) r) := by
  induction ps generalizing r with
  | nil => rfl
  | cons p ps ih => simp [pathParamsLoop, ih]

theorem mapGet_foldl_mapSet (ps : List (String × String)) (r : GoMap) (k : String) :
    mapGet (ps.foldl (fun r p => mapSet r p.1 p.2) r) k
      = match pathValue ps k with
        | some w => some w
        | none => mapGet r k := by
  induction ps generalizing r with
  | nil => rfl
  | cons p ps ih =>
    obtain ⟨n, v⟩ := p
    simp only [List.foldl_cons, ih, pathValue]
    cases pathValue ps k with
    | some w => rfl
    | none =>
      simp only [mapGet_mapSet]
      by_cases h : n = k <;> simp [h]

theorem pathParamsEcho_pairs (ps : List (String × String)) :
    ∃ r, pathParamsEcho (ps.map Prod.fst) (ps.map Prod.snd) = some r ∧
      ∀ k, mapGet r k = pathValue ps k := by
  refine ⟨_, pathParamsLoop_pairs ps [], fun k => ?_⟩
  rw [mapGet_foldl_mapSet]
  cases pathValue ps k <;> rfl

theorem queryGet_eq_none (qp : List (String × List String)) (k : String)
    (h : k ∉ qp.map Prod.fst) : queryGet qp k = none := by
  induction qp with
  | nil => rfl
  | cons e qp ih =>
    obtain ⟨a, b⟩ := e
    simp only [List.map_cons, List.mem_cons, not_or] at h
    simp [queryGet, Ne.symm h.1, ih h.2]

theorem queryGet_eq_some_iff (qp : List (String × List String)) (k : String)
    (vals : List String) (h : (qp.map Prod.fst).Nodup) :
    queryGet qp k = some vals ↔ (k, vals) ∈ qp := by
  induction qp with
  | nil => simp [queryGet]
  | cons e qp ih =>
    obtain ⟨a, b⟩ := e
    simp only [List.map_cons, List.nodup_cons] at h
    simp only [queryGet, List.mem_cons, Prod.mk.injEq]
    by_cases hk : a = k
    · subst hk
      have : (a, vals) ∉ qp := fun hm => h.1 (List.mem_map.mpr ⟨_, hm, rfl⟩)
      simp only [if_true, Option.some.injEq, true_and, this, or_false]
      exact eq_comm
    · simp only [hk, if_false, ih h.2, Ne.symm hk, false_and, false_or]

theorem queryGet_perm (qp₁ qp₂ : List (String × List String)) (k : String)
    (hperm : qp₁.Perm qp₂) (h : (qp₁.map Prod.fst).Nodup) :
    queryGet qp₁ k = queryGet qp₂ k := by
  have h₂ : (qp₂.map Prod.fst).Nodup := (hperm.map Prod.fst).nodup_iff.mp h
  apply Option.ext
  intro vals
  simp only [Option.mem_def]
  rw [queryGet_eq_some_iff _ _ _ h, queryGet_eq_some_iff _ _ _ h₂]
  exact hperm.mem_iff

theorem mapGet_urlParamsLoop (qp : List (String × List String)) (r : GoMap) (k : String)
    (h : (qp.map Prod.fst).Nodup) :
    mapGet (urlParamsLoop qp r) k
      = match queryGet qp k with
        | none => mapGet r k
        | some vals => some (joinValues ((mapGet r k).getD "") vals) := by
  induction qp generalizing r with
  | nil => rfl
  | cons e qp ih =>
    obtain ⟨i, j⟩ := e
    simp only [List.map_cons, List.nodup_cons] at h
    have hstep : urlParamsLoop ((i, j) :: qp) r
        = urlParamsLoop qp (mapSet r i (joinValues ((mapGet r i).getD "") j)) := by
      simp only [urlParamsLoop, List.foldl_cons]
      cases mapGet r i <;> rfl
    rw [hstep, ih _ h.2]
    simp only [queryGet, mapGet_mapSet]
    by_cases hk : i = k
    · subst hk
      simp [queryGet_eq_none qp i h.1]
    · simp [hk]

theorem append_ne_empty (s t : String) (h : s ≠ "") : s ++ t ≠ "" := by
  intro h'
  apply h
  have := congrArg String.data h'
  simp only [String.data_append] at this
  exact String.ext (List.append_eq_nil.mp this).1

theorem joinValues_go (s : String) (j : List String) (h : s ≠ "") :
    joinValues s j = String.intercalate.go s ", " j := by
  induction j generalizing s with
  | nil => rfl
  | cons e j ih =>
    have hs : (s != "") = true := by simpa using h
    simp only [joinValues, List.foldl_cons, hs, if_true, String.intercalate.go]
    rw [← String.append_assoc]
    exact ih _ (append_ne_empty _ _ (append_ne_empty _ _ h))

theorem joinValues_dropWhile (s : String) (j : List String) :
    joinValues s j = String.intercalate ", " ((s :: j).dropWhile (fun e => e == "")) := by
  induction j generalizing s with
  | nil =>
    by_cases h : s = ""
    · subst h; rfl
    · have hs : (s == "") = false := by simpa using h
      simp [joinValues, List.dropWhile, hs, String.intercalate, String.intercalate.go]
  | cons e j ih =>
    by_cases h : s = ""
    · subst h
      have : joinValues "" (e :: j) = joinValues e j := rfl
      rw [this, ih e]
      rfl
    · have hs : (s == "") = false := by simpa using h
      rw [joinValues_go s _ h]
      simp [List.dropWhile, hs, String.intercalate]

theorem dropWhile_empty_id (l : List String) (h : ∀ e ∈ l, e ≠ "") :
    l.dropWhile (fun e => e == "") = l := by
  cases l with
  | nil => rfl
  | cons a l =>
    have : (a == "") = false := by simpa using h a (List.mem_cons_self _ _)
    simp [List.dropWhile, this]

theorem pathValue_mem (ps : List (String × String)) (k w : String)
    (h : pathValue ps k = some w) : (k, w) ∈ ps := by
  induction ps with
  | nil => simp [pathValue] at h
  | cons p ps ih =>
    obtain ⟨n, v⟩ := p
    simp only [pathValue] at h
    cases hp : pathValue ps k with
    | some w' =>
      simp only [hp, Option.some.injEq] at h
      subst h
      exact List.mem_cons_of_mem _ (ih hp)
    | none =>
      simp only [hp] at h
      split at h
      · rename_i hn
        simp only [Option.some.injEq] at h
        subst h; subst hn
        exact List.mem_cons_self _ _
      · simp at h

theorem urlParamsEcho_trimmed (ps : List (String × String)) (qp : List (String × List String))
    (hq : (qp.map Prod.fst).Nodup) :
    ∃ r, urlParamsEcho (ps.map Prod.fst) (ps.map Prod.snd) qp = some r ∧
      ∀ name, mapGet r name = flattenTrimmed ps qp name := by
  obtain ⟨r₀, hr₀, hget⟩ := pathParamsEcho_pairs ps
  refine ⟨urlParamsLoop qp r₀, by simp [urlParamsEcho, hr₀], fun name => ?_⟩
  rw [mapGet_urlParamsLoop qp r₀ name hq, flattenTrimmed, hget]
  cases queryGet qp name with
  | none => rfl
  | some vals =>
    simp only [joinValues_dropWhile]
    cases pathValue ps name with
    | none => rfl
    | some w => rfl

/-! ## The context bridge -/

theorem ctxSet_header (bridged : Bool) (c : echo.Context) (key : String) (val : Option Val) :
    (ctxSet bridged c key val).request.Header = c.request.Header := by
  cases bridged <;> rfl

theorem ctxSet_body (bridged : Bool) (c : echo.Context) (key : String) (val : Option Val) :
    (ctxSet bridged c key val).request.Body = c.request.Body := by
  cases bridged <;> rfl

theorem withValue_withValue (f : Carrier) (key : CtxKey) (v w : Option Val) :
    withValue (withValue f key v) key w = withValue f key w := by
  funext k
  simp only [withValue]
  split <;> rfl

theorem ctxSet_ctxSet (bridged : Bool) (c : echo.Context) (key : String) (v w : Option Val) :
    ctxSet bridged (ctxSet bridged c key v) key w = ctxSet bridged c key w := by
  cases bridged
  · simp only [ctxSet, Bool.false_eq_true, if_false, echo.Context.Set]
    congr 1
    funext k
    split <;> rfl
  · simp only [ctxSet, if_true, contextValue.Set, withValue_withValue]

/-! ## Claims on the replay branch and the pass-through -/

/-- C3: under `testMW` with a non-nil app, a request whose `KEPLOY_TEST_ID`
header is empty or names an id unknown to `app.Get` is passed through: the
middleware is exactly `next` run on the unchanged context, it returns the error
of `next`, and the SDK handle (so `app.Resp` and the captures) is unchanged. -/
theorem testMW_passthrough (env : Env) (app : keploy.App) (next : Handler) (bridged : Bool)
    (c : echo.Context)
    (h : headerGet c.request.Header "KEPLOY_TEST_ID" = "" ∨
      app.Get (headerGet c.request.Header "KEPLOY_TEST_ID") = none) :
    testMW env (some app) next bridged c =
      { c := (run env bridged next c).1, app := some app, err := (run env bridged next c).2 } := by
  unfold testMW
  by_cases hid : headerGet c.request.Header "KEPLOY_TEST_ID" = ""
  · simp [hid]
  · have hget := h.resolve_left hid
    simp [hid, hget]

/-- Instance of C3: the id `x` is unknown to the SDK. -/
theorem testMW_passthrough_witness :
    (sampleApp (fun _ => none) (fun _ => [])).Get
        (headerGet (sampleCtx [("KEPLOY_TEST_ID", ["x"])] none).request.Header "KEPLOY_TEST_ID")
      = none ∧
    testMW sampleEnv (some (sampleApp (fun _ => none) (fun _ => []))) helloHandler true
        (sampleCtx [("KEPLOY_TEST_ID", ["x"])] none) =
      { c := (run sampleEnv true helloHandler (sampleCtx [("KEPLOY_TEST_ID", ["x"])] none)).1,
        app := some (sampleApp (fun _ => none) (fun _ => [])),
        err := (run sampleEnv true helloHandler (sampleCtx [("KEPLOY_TEST_ID", ["x"])] none)).2 } :=
  ⟨rfl, testMW_passthrough _ _ _ _ _ (Or.inr rfl)⟩

/-- C2: for a request whose `KEPLOY_TEST_ID` header is a non-empty id known to
`app.Get`, `testMW` and `captureMW` both store under that id the snapshot that
`captureResp` returns for the request (taken on the context with the keploy
context of mode `test` set), and neither calls `app.Capture`. -/
theorem replay_stores_response (env : Env) (app : keploy.App) (next : Handler) (bridged : Bool)
    (c : echo.Context) (id : String) (tc : keploy.TestCase)
    (hhdr : headerGet c.request.Header "KEPLOY_TEST_ID" = id) (hid : id ≠ "")
    (hget : app.Get id = some tc) :
    (∃ (c' : echo.Context) (resp : keploy.HttpResp) (app' : keploy.App),
      captureResp env bridged
          (ctxSet bridged c env.KCTX
            (some (Val.kctx { Mode := "test", TestID := id, Deps := tc.Deps }))) next
        = (c', resp) ∧
      testMW env (some app) next bridged c = { c := c', app := some app', err := none } ∧
      app'.captured = app.captured ∧ app'.Resp id = some resp ∧
      resp.StatusCode = c'.response.Status ∧ resp.Header = c'.response.Header) ∧
    (∃ (c' : echo.Context) (resp : keploy.HttpResp) (app' : keploy.App),
      captureResp env bridged
          (ctxSet bridged
            (ctxSet bridged c env.KCTX
              (some (Val.kctx { Mode := "capture", TestID := "", Deps := [] })))
            env.KCTX (some (Val.kctx { Mode := "test", TestID := id, Deps := app.Deps id }))) next
        = (c', resp) ∧
      captureMW env (some app) next bridged c = .ok { c := c', app := some app', err := none } ∧
      app'.captured = app.captured ∧ app'.Resp id = some resp ∧
      resp.StatusCode = c'.response.Status ∧ resp.Header = c'.response.Header) := by
  subst hhdr
  constructor
  · generalize hR : captureResp env bridged
      (ctxSet bridged c env.KCTX (some (Val.kctx
        { Mode := "test", TestID := headerGet c.request.Header "KEPLOY_TEST_ID",
          Deps := tc.Deps }))) next = R
    have hsnap : R.2.StatusCode = R.1.response.Status ∧ R.2.Header = R.1.response.Header := by
      rw [← hR]; exact ⟨rfl, rfl⟩
    refine ⟨R.1, R.2, setResp app (headerGet c.request.Header "KEPLOY_TEST_ID") R.2, rfl, ?_, rfl,
      by simp [setResp], hsnap.1, hsnap.2⟩
    simp only [testMW, hid, if_false, hget, hR]
  · generalize hR : captureResp env bridged
      (ctxSet bridged
        (ctxSet bridged c env.KCTX
          (some (Val.kctx { Mode := "capture", TestID := "", Deps := [] })))
        env.KCTX (some (Val.kctx
          { Mode := "test", TestID := headerGet c.request.Header "KEPLOY_TEST_ID",
            Deps := app.Deps (headerGet c.request.Header "KEPLOY_TEST_ID") }))) next = R
    have hsnap : R.2.StatusCode = R.1.response.Status ∧ R.2.Header = R.1.response.Header := by
      rw [← hR]; exact ⟨rfl, rfl⟩
    refine ⟨R.1, R.2, setResp app (headerGet c.request.Header "KEPLOY_TEST_ID") R.2, rfl, ?_, rfl,
      by simp [setResp], hsnap.1, hsnap.2⟩
    simp only [captureMW, ctxSet_header, ne_eq, hid, not_false_eq_true, if_true, hR]

/-- Instance of C2 under `testMW`: the id `x` is known. -/
theorem replay_stores_response_witness :
    (∃ (c' : echo.Context) (resp : keploy.HttpResp) (app' : keploy.App),
      captureResp sampleEnv true
          (ctxSet true (sampleCtx [("KEPLOY_TEST_ID", ["x"])] none) sampleEnv.KCTX
            (some (Val.kctx { Mode := "test", TestID := "x", Deps := ["db"] }))) helloHandler
        = (c', resp) ∧
      testMW sampleEnv (some (sampleApp (fun _ => some { Deps := ["db"] }) (fun _ => ["db"])))
          helloHandler true (sampleCtx [("KEPLOY_TEST_ID", ["x"])] none)
        = { c := c', app := some app', err := none } ∧
      app'.captured = [] ∧ app'.Resp "x" = some resp ∧
      resp.StatusCode = c'.response.Status ∧ resp.Header = c'.response.Header) :=
  (replay_stores_response sampleEnv (sampleApp (fun _ => some { Deps := ["db"] }) (fun _ => ["db"]))
    helloHandler true (sampleCtx [("KEPLOY_TEST_ID", ["x"])] none) "x" { Deps := ["db"] }
    rfl (by decide) rfl).1

/-! ## Claims on the context bridge -/

/-- C7, as amended: after `Set(k, v)` on the bridge, the request's context
carrier holds `v` under `KctxType(k)`; the bridge's `Get(k)` returns `v` when
the framework-local store has no value for `k`, and the framework-local value
otherwise. -/
theorem contextValue_set_get (ctx : echo.Context) (key : String) (val : Option Val) :
    (contextValue.Set ctx key val).request.ctx (CtxKey.kctxType key) = val ∧
    (ctx.Get key = none → contextValue.Get (contextValue.Set ctx key val) key = val) ∧
    (∀ w, ctx.Get key = some w →
      contextValue.Get (contextValue.Set ctx key val) key = some w) := by
  refine ⟨by simp [contextValue.Set, withValue], fun h => ?_, fun w h => ?_⟩
  · have h' : (contextValue.Set ctx key val).Get key = none := h
    simp only [contextValue.Get]
    rw [h']
    simp [contextValue.Set, withValue]
  · have h' : (contextValue.Set ctx key val).Get key = some w := h
    simp only [contextValue.Get]
    rw [h']

/-- Instance of C7 on a context with an empty framework-local store. -/
theorem contextValue_set_get_witness :
    contextValue.Get
        (contextValue.Set (sampleCtx [] none) "k" (some (Val.other "v"))) "k"
      = some (Val.other "v") :=
  (contextValue_set_get (sampleCtx [] none) "k" (some (Val.other "v"))).2.1 rfl

/-- C7 fails as stated: with `"w"` in the framework-local store under `"k"`,
the bridge's `Get("k")` after `Set("k", "v")` returns `"w"`, not `"v"`. -/
theorem contextValue_get_shadowed :
    contextValue.Get
        (contextValue.Set ((sampleCtx [] none).Set "k" (some (Val.other "w"))) "k"
          (some (Val.other "v"))) "k"
      = some (Val.other "w") ∧
    contextValue.Get
        (contextValue.Set ((sampleCtx [] none).Set "k" (some (Val.other "w"))) "k"
          (some (Val.other "v"))) "k"
      ≠ some (Val.other "v") := by
  constructor <;> decide

/-! ## Claims on the capture branch -/

/-- C8, as amended: when the request carries no `KEPLOY_TEST_ID` and reading its
body fails, `captureMW` returns at once: nothing is passed to `app.Capture` (the
SDK handle is unchanged), `next` is not run (the outcome does not depend on it;
the context is the incoming one with the capture-mode keploy context set and
the body drained), and the read error is returned to the framework. -/
theorem captureMW_read_error (env : Env) (app : keploy.App) (next : Handler) (bridged : Bool)
    (c : echo.Context) (body : Body) (e : String)
    (hid : headerGet c.request.Header "KEPLOY_TEST_ID" = "")
    (hbody : c.request.Body = some body) (herr : body.err = some e) :
    captureMW env (some app) next bridged c =
      .ok { c :=
              { ctxSet bridged c env.KCTX
                  (some (Val.kctx { Mode := "capture", TestID := "", Deps := [] })) with
                request :=
                  { (ctxSet bridged c env.KCTX
                      (some (Val.kctx { Mode := "capture", TestID := "", Deps := [] }))).request with
                    Body := some { data := "", err := some e } } }
            app := some app
            err := some e } := by
  simp only [captureMW, ctxSet_header, ctxSet_body, hid, hbody, readAll, herr, ne_eq,
    not_true_eq_false, if_false]

/-- Instance of C8: the body read ends with `unexpected EOF`. -/
theorem captureMW_read_error_witness :
    captureMW sampleEnv (some (sampleApp (fun _ => none) (fun _ => []))) helloHandler true
        (sampleCtx [] (some { data := "par", err := some "unexpected EOF" })) =
      .ok { c :=
              { ctxSet true (sampleCtx [] (some { data := "par", err := some "unexpected EOF" }))
                  sampleEnv.KCTX
                  (some (Val.kctx { Mode := "capture", TestID := "", Deps := [] })) with
                request :=
                  { (ctxSet true
                      (sampleCtx [] (some { data := "par", err := some "unexpected EOF" }))
                      sampleEnv.KCTX
                      (some (Val.kctx { Mode := "capture", TestID := "", Deps := [] }))).request with
                    Body := some { data := "", err := some "unexpected EOF" } } }
            app := some (sampleApp (fun _ => none) (fun _ => []))
            err := some "unexpected EOF" } :=
  captureMW_read_error sampleEnv _ helloHandler true _
    { data := "par", err := some "unexpected EOF" } "unexpected EOF" rfl rfl rfl

/-- C8 fails as stated: on a request whose body read fails with
`unexpected EOF`, `captureMW` around a handler that would write `"hi"` returns
that error to the framework and the handler has not run: nothing was written. -/
theorem captureMW_read_error_returned :
    ∃ o : Outcome,
      captureMW sampleEnv (some (sampleApp (fun _ => none) (fun _ => []))) helloHandler true
          (sampleCtx [] (some { data := "par", err := some "unexpected EOF" })) = .ok o ∧
      o.err = some "unexpected EOF" ∧ o.c.written = [] ∧ o.c.wire = "" ∧
      (run sampleEnv true helloHandler
        (sampleCtx [] (some { data := "par", err := some "unexpected EOF" }))).1.written
        = ["hi"] :=
  ⟨_, rfl, rfl, rfl, rfl, by decide⟩

/-- C9, as amended: for a request with a non-empty `KEPLOY_TEST_ID`, `captureMW`
always records: keploy context of mode `test` with `Deps` taken from
`app.Deps[id]`, response stored in `app.Resp[id]`, no call of `app.Capture`, no
error returned. When the id is known to `app.Get` and the test case's `Deps`
are `app.Deps[id]`, this is exactly what `testMW` does. -/
theorem captureMW_replay (env : Env) (app : keploy.App) (next : Handler) (bridged : Bool)
    (c : echo.Context) (id : String)
    (hhdr : headerGet c.request.Header "KEPLOY_TEST_ID" = id) (hid : id ≠ "") :
    captureMW env (some app) next bridged c =
      .ok { c := (captureResp env bridged (ctxSet bridged c env.KCTX
                    (some (Val.kctx { Mode := "test", TestID := id, Deps := app.Deps id })))
                    next).1
            app := some (setResp app id
                    (captureResp env bridged (ctxSet bridged c env.KCTX
                      (some (Val.kctx { Mode := "test", TestID := id, Deps := app.Deps id })))
                      next).2)
            err := none } ∧
    (∀ tc : keploy.TestCase, app.Get id = some tc → tc.Deps = app.Deps id →
      captureMW env (some app) next bridged c = .ok (testMW env (some app) next bridged c)) := by
  subst hhdr
  constructor
  · simp only [captureMW, ctxSet_header, ne_eq, hid, not_false_eq_true, if_true, ctxSet_ctxSet]
  · intro tc hget hdeps
    simp only [captureMW, ctxSet_header, ne_eq, hid, not_false_eq_true, if_true, ctxSet_ctxSet,
      testMW, if_false, hget, hdeps]

/-- Instance of C9: the id `x` is known and its dependencies agree. -/
theorem captureMW_replay_witness :
    captureMW sampleEnv (some (sampleApp (fun _ => some { Deps := ["db"] }) (fun _ => ["db"])))
        helloHandler true (sampleCtx [("KEPLOY_TEST_ID", ["x"])] none) =
      .ok (testMW sampleEnv (some (sampleApp (fun _ => some { Deps := ["db"] }) (fun _ => ["db"])))
        helloHandler true (sampleCtx [("KEPLOY_TEST_ID", ["x"])] none)) :=
  (captureMW_replay sampleEnv (sampleApp (fun _ => some { Deps := ["db"] }) (fun _ => ["db"]))
    helloHandler true (sampleCtx [("KEPLOY_TEST_ID", ["x"])] none) "x" rfl (by decide)).2
    { Deps := ["db"] } rfl rfl

/-- C9 fails as stated. For the id `"x"` unknown to `app.Get`, `testMW` passes
the request through and `app.Resp["x"]` stays empty, `captureMW` records a
response there. For a known id whose test case has other dependencies than
`app.Deps["x"]`, the two leave different keploy contexts. -/
theorem captureMW_differs_from_testMW :
    captureMW sampleEnv (some (sampleApp (fun _ => none) (fun _ => []))) helloHandler true
        (sampleCtx [("KEPLOY_TEST_ID", ["x"])] none)
      ≠ .ok (testMW sampleEnv (some (sampleApp (fun _ => none) (fun _ => []))) helloHandler true
        (sampleCtx [("KEPLOY_TEST_ID", ["x"])] none)) ∧
    captureMW sampleEnv (some (sampleApp (fun _ => some { Deps := ["db"] }) (fun _ => [])))
        helloHandler true (sampleCtx [("KEPLOY_TEST_ID", ["x"])] none)
      ≠ .ok (testMW sampleEnv (some (sampleApp (fun _ => some { Deps := ["db"] }) (fun _ => [])))
        helloHandler true (sampleCtx [("KEPLOY_TEST_ID", ["x"])] none)) := by
  constructor
  · intro h
    have h' := congrArg respAtX h
    revert h'
    decide
  · intro h
    have h' := congrArg (depsLeft "KeployContext") h
    revert h'
    decide

/-! ## The response recorder -/

theorem concatAll_append (xs ys : List String) :
    concatAll (xs ++ ys) = concatAll xs ++ concatAll ys := by
  induction xs with
  | nil => simp [concatAll]
  | cons x xs ih => simp [concatAll, ih, String.append_assoc]

theorem bufferWrite_bufferWrite (bufs : List String) (i : Nat) (a b : String) :
    bufferWrite (bufferWrite bufs i a) i b = bufferWrite bufs i (a ++ b) := by
  induction bufs generalizing i with
  | nil => cases i <;> rfl
  | cons x bufs ih =>
    cases i with
    | zero => simp [bufferWrite, String.append_assoc]
    | succ i => simp [bufferWrite, ih]

theorem bufferWrite_empty (bufs : List String) (i : Nat) : bufferWrite bufs i "" = bufs := by
  induction bufs generalizing i with
  | nil => cases i <;> rfl
  | cons x bufs ih =>
    cases i with
    | zero => simp [bufferWrite]
    | succ i => simp [bufferWrite, ih]

theorem bufferWrite_last (bufs : List String) (x b : String) :
    bufferWrite (bufs ++ [x]) bufs.length b = bufs ++ [x ++ b] := by
  induction bufs with
  | nil => rfl
  | cons y bufs ih => simp [bufferWrite, ih]

theorem getD_last (bufs : List String) (x d : String) :
    (bufs ++ [x]).getD bufs.length d = x := by
  induction bufs with
  | nil => rfl
  | cons y bufs ih => simp [ih]

theorem writerWriteHeader_same (w : http.ResponseWriter) (code : Int) (c : echo.Context) :
    (writerWriteHeader w code c).request = c.request ∧
    (writerWriteHeader w code c).response = c.response ∧
    (writerWriteHeader w code c).buffers = c.buffers ∧
    (writerWriteHeader w code c).wire = c.wire ∧
    (writerWriteHeader w code c).written = c.written := by
  induction w with
  | real =>
    simp only [writerWriteHeader]
    cases c.wireStatus <;> simp
  | bodyDumpResponseWriter w i ih => exact ih

theorem responseWriteHeader_same (c : echo.Context) (code : Int) :
    (responseWriteHeader c code).request = c.request ∧
    (responseWriteHeader c code).response.Writer = c.response.Writer ∧
    (responseWriteHeader c code).buffers = c.buffers ∧
    (responseWriteHeader c code).wire = c.wire ∧
    (responseWriteHeader c code).written = c.written := by
  unfold responseWriteHeader
  split
  · exact ⟨rfl, rfl, rfl, rfl, rfl⟩
  · obtain ⟨h1, h2, h3, h4, h5⟩ := writerWriteHeader_same c.response.Writer code
      { c with response := { c.response with Status := code } }
    have h2' := congrArg echo.Response.Writer h2
    exact ⟨h1, h2', h3, h4, h5⟩

theorem writerWrite_request (env : Env) (w : http.ResponseWriter) (b : String)
    (c : echo.Context) : (writerWrite env w b c).1.request = c.request := by
  induction w with
  | real =>
    simp only [writerWrite]
    cases env.transport c.wire b <;> rfl
  | bodyDumpResponseWriter w i ih =>
    simp only [writerWrite]
    revert ih
    cases writerWrite env w b c with
    | mk c' ok =>
      intro ih
      cases ok <;> simpa using ih

theorem responseWrite_request (env : Env) (c : echo.Context) (b : String) :
    (responseWrite env c b).1.request = c.request := by
  unfold responseWrite
  split
  · exact writerWrite_request env _ b c
  · exact (writerWrite_request env _ b _).trans (responseWriteHeader_same c _).1

theorem ctxSet_carrier_ne (bridged : Bool) (c : echo.Context) (key KCTX : String)
    (val : Option Val) (h : key ≠ KCTX) :
    (ctxSet bridged c key val).request.ctx (CtxKey.kctxType KCTX)
      = c.request.ctx (CtxKey.kctxType KCTX) := by
  cases bridged
  · rfl
  · simp [ctxSet, contextValue.Set, withValue, Ne.symm h]

/-- A handler that keeps the carrier leaves a keploy context under `KCTX`. -/
theorem run_keeps (env : Env) (bridged : Bool) (h : Handler) :
    ∀ c : echo.Context, h.keepsCarrier env.KCTX →
      (∃ kc, c.request.ctx (CtxKey.kctxType env.KCTX) = some (Val.kctx kc)) →
      ∃ kc, (run env bridged h c).1.request.ctx (CtxKey.kctxType env.KCTX)
        = some (Val.kctx kc) := by
  induction h with
  | done err => intro c _ hc; exact hc
  | write b k ih =>
    intro c hk hc
    simp only [Handler.keepsCarrier] at hk
    simp only [run]
    apply ih _ _ (hk _)
    rw [responseWrite_request]
    exact hc
  | writeHeader code k ih =>
    intro c hk hc
    simp only [Handler.keepsCarrier] at hk
    simp only [run]
    apply ih _ hk
    rw [(responseWriteHeader_same c code).1]
    exact hc
  | setStatus code k ih =>
    intro c hk hc
    simp only [Handler.keepsCarrier] at hk
    exact ih _ hk hc
  | setHeader key value k ih =>
    intro c hk hc
    simp only [Handler.keepsCarrier] at hk
    exact ih _ hk hc
  | get key k ih =>
    intro c hk hc
    simp only [Handler.keepsCarrier] at hk
    exact ih _ c (hk _) hc
  | set key val k ih =>
    intro c hk hc
    simp only [Handler.keepsCarrier] at hk
    simp only [run]
    apply ih _ hk.2
    rw [ctxSet_carrier_ne bridged c key env.KCTX val hk.1]
    exact hc
  | value key k ih =>
    intro c hk hc
    simp only [Handler.keepsCarrier] at hk
    exact ih _ c (hk _) hc
  | withContext f k ih =>
    intro c hk _
    simp only [Handler.keepsCarrier] at hk
  | readBody k ih =>
    intro c hk hc
    simp only [Handler.keepsCarrier] at hk
    simp only [run]
    cases c.request.Body with
    | none => exact ih _ _ c (hk _ _) hc
    | some body => exact ih _ _ _ (hk _ _) hc
  | mutateKctx f k ih =>
    intro c hk hc
    simp only [Handler.keepsCarrier] at hk
    simp only [run]
    split
    · rename_i kc _
      apply ih _ hk
      exact ⟨f kc, by simp [withValue]⟩
    · exact ih c hk hc

theorem nextOrError_keeps (env : Env) (bridged : Bool) (c : echo.Context) (next : Handler)
    (hnext : next.keepsCarrier env.KCTX)
    (herr : ∀ e, (env.HTTPErrorHandler e).keepsCarrier env.KCTX)
    (hc : ∃ kc, c.request.ctx (CtxKey.kctxType env.KCTX) = some (Val.kctx kc)) :
    ∃ kc, (nextOrError env bridged c next).request.ctx (CtxKey.kctxType env.KCTX)
      = some (Val.kctx kc) := by
  have h₁ := run_keeps env bridged next c hnext hc
  unfold nextOrError
  cases (run env bridged next c).2 with
  | none => exact h₁
  | some err => exact run_keeps env false _ _ (herr err) h₁

theorem responseWriteHeader_recording (i : Nat) (bufs : List String) (c : echo.Context)
    (code : Int) (hw : c.response.Writer = .real) :
    responseWriteHeader (recording i bufs c) code
      = recording i bufs (responseWriteHeader c code) := by
  obtain ⟨req, ⟨st, hd, cm, wr⟩, store, pp, qp, bf, wire, wst, wrt⟩ := c
  simp only at hw
  subst hw
  cases cm <;> cases wst <;> rfl

theorem responseWrite_recording (env : Env) (i : Nat) (bufs : List String)
    (c : echo.Context) (b : String)
    (haccept : ∀ sent p, env.transport sent p = none) (hw : c.response.Writer = .real) :
    responseWrite env (recording i bufs c) b
      = (recording i (bufferWrite bufs i b) (responseWrite env c b).1, true) ∧
    (responseWrite env c b).2 = true ∧
    (responseWrite env c b).1.response.Writer = .real ∧
    (responseWrite env c b).1.written = c.written ∧
    (responseWrite env c b).1.wire = c.wire ++ b := by
  obtain ⟨req, ⟨st, hd, cm, wr⟩, store, pp, qp, bf, wire, wst, wrt⟩ := c
  simp only at hw
  subst hw
  cases cm <;> cases wst <;>
    simp [responseWrite, responseWriteHeader, writerWriteHeader, writerWrite, haccept, recording]

/-- With a transport that accepts every write, a handler run under the recorder
does what it does without it, and the recorder's buffer gets the bytes the
handler writes, which are the bytes the client gets. -/
theorem run_recording (env : Env) (bridged : Bool) (i : Nat)
    (haccept : ∀ sent p, env.transport sent p = none) (h : Handler) :
    ∀ (c : echo.Context) (bufs : List String), c.response.Writer = .real →
      ∃ ws, (run env bridged h c).1.written = c.written ++ ws ∧
        (run env bridged h c).1.wire = c.wire ++ concatAll ws ∧
        (run env bridged h c).1.response.Writer = .real ∧
        run env bridged h (recording i bufs c)
          = (recording i (bufferWrite bufs i (concatAll ws)) (run env bridged h c).1,
             (run env bridged h c).2) := by
  induction h with
  | done err =>
    intro c bufs hw
    exact ⟨[], by simp [run], by simp [run, concatAll], hw,
      by simp [run, concatAll, bufferWrite_empty]⟩
  | write b k ih =>
    intro c bufs hw
    obtain ⟨h1, h2, h3, h4, h5⟩ :=
      responseWrite_recording env i bufs { c with written := c.written ++ [b] } b haccept hw
    obtain ⟨ws, g1, g2, g3, g4⟩ :=
      ih true (responseWrite env { c with written := c.written ++ [b] } b).1
        (bufferWrite bufs i b) h3
    have hplain : run env bridged (.write b k) c
        = run env bridged (k true) (responseWrite env { c with written := c.written ++ [b] } b).1 := by
      simp only [run, h2]
    have hrec : run env bridged (.write b k) (recording i bufs c)
        = run env bridged (k true)
            (recording i (bufferWrite bufs i b)
              (responseWrite env { c with written := c.written ++ [b] } b).1) := by
      have : ({ recording i bufs c with written := (recording i bufs c).written ++ [b] }
          : echo.Context) = recording i bufs { c with written := c.written ++ [b] } := rfl
      simp only [run, this, h1]
    refine ⟨b :: ws, ?_, ?_, ?_, ?_⟩
    · rw [hplain, g1, h4]; simp
    · rw [hplain, g2, h5]; simp [concatAll, String.append_assoc]
    · rw [hplain]; exact g3
    · rw [hrec, hplain, g4, bufferWrite_bufferWrite]; rfl
  | writeHeader code k ih =>
    intro c bufs hw
    obtain ⟨_, h2, _, h4, h5⟩ := responseWriteHeader_same c code
    obtain ⟨ws, g1, g2, g3, g4⟩ := ih (responseWriteHeader c code) bufs (h2.trans hw)
    refine ⟨ws, ?_, ?_, g3, ?_⟩
    · simp only [run]; rw [g1, h5]
    · simp only [run]; rw [g2, h4]
    · simp only [run]; rw [responseWriteHeader_recording i bufs c code hw]; exact g4
  | setStatus code k ih =>
    intro c bufs hw
    exact ih { c with response := { c.response with Status := code } } bufs hw
  | setHeader key value k ih =>
    intro c bufs hw
    exact ih
      { c with response := { c.response with Header := headerSet c.response.Header key value } }
      bufs hw
  | get key k ih =>
    intro c bufs hw
    cases bridged <;> exact ih _ c bufs hw
  | set key val k ih =>
    intro c bufs hw
    cases bridged
    · exact ih (c.Set key val) bufs hw
    · exact ih (contextValue.Set c key val) bufs hw
  | value key k ih =>
    intro c bufs hw
    exact ih _ c bufs hw
  | withContext f k ih =>
    intro c bufs hw
    exact ih { c with request := { c.request with ctx := f c.request.ctx } } bufs hw
  | readBody k ih =>
    intro c bufs hw
    cases hb : c.request.Body with
    | none =>
      have e1 : run env bridged (.readBody k) c = run env bridged (k "" none) c := by
        simp only [run, hb]
      have e2 : run env bridged (.readBody k) (recording i bufs c)
          = run env bridged (k "" none) (recording i bufs c) := by
        have : (recording i bufs c).request.Body = none := hb
        simp only [run, this]
      rw [e1, e2]
      exact ih _ _ c bufs hw
    | some body =>
      have e1 : run env bridged (.readBody k) c
          = run env bridged (k (readAll body).1 (readAll body).2.1)
              { c with request := { c.request with Body := some (readAll body).2.2 } } := by
        simp only [run, hb]
      have e2 : run env bridged (.readBody k) (recording i bufs c)
          = run env bridged (k (readAll body).1 (readAll body).2.1)
              (recording i bufs
                { c with request := { c.request with Body := some (readAll body).2.2 } }) := by
        have : (recording i bufs c).request.Body = some body := hb
        simp only [run, this]
        rfl
      rw [e1, e2]
      exact ih _ _ _ bufs hw
  | mutateKctx f k ih =>
    intro c bufs hw
    cases hk : c.request.ctx (CtxKey.kctxType env.KCTX) with
    | none =>
      have e1 : run env bridged (.mutateKctx f k) c = run env bridged k c := by
        simp only [run, hk]
      have e2 : run env bridged (.mutateKctx f k) (recording i bufs c)
          = run env bridged k (recording i bufs c) := by
        have : (recording i bufs c).request.ctx (CtxKey.kctxType env.KCTX) = none := hk
        simp only [run, this]
      rw [e1, e2]
      exact ih c bufs hw
    | some v =>
      cases v with
      | other t =>
        have e1 : run env bridged (.mutateKctx f k) c = run env bridged k c := by
          simp only [run, hk]
        have e2 : run env bridged (.mutateKctx f k) (recording i bufs c)
            = run env bridged k (recording i bufs c) := by
          have : (recording i bufs c).request.ctx (CtxKey.kctxType env.KCTX)
              = some (Val.other t) := hk
          simp only [run, this]
        rw [e1, e2]
        exact ih c bufs hw
      | kctx kc =>
        have e1 : run env bridged (.mutateKctx f k) c
            = run env bridged k
                { c with request :=
                    { c.request with
                      ctx := withValue c.request.ctx (CtxKey.kctxType env.KCTX)
                        (some (Val.kctx (f kc))) } } := by
          simp only [run, hk]
        have e2 : run env bridged (.mutateKctx f k) (recording i bufs c)
            = run env bridged k
                (recording i bufs
                  { c with request :=
                      { c.request with
                        ctx := withValue c.request.ctx (CtxKey.kctxType env.KCTX)
                          (some (Val.kctx (f kc))) } }) := by
          have : (recording i bufs c).request.ctx (CtxKey.kctxType env.KCTX)
              = some (Val.kctx kc) := hk
          simp only [run, this]
          rfl
        rw [e1, e2]
        exact ih _ bufs hw

theorem served_recording (env : Env) (bridged : Bool) (i : Nat) (c : echo.Context)
    (bufs : List String) (next : Handler)
    (haccept : ∀ sent p, env.transport sent p = none) (hw : c.response.Writer = .real) :
    ∃ ws, (served env bridged c next).written = c.written ++ ws ∧
      (served env bridged c next).wire = c.wire ++ concatAll ws ∧
      nextOrError env bridged (recording i bufs c) next
        = recording i (bufferWrite bufs i (concatAll ws)) (served env bridged c next) := by
  obtain ⟨ws₁, g1, g2, g3, g4⟩ := run_recording env bridged i haccept next c bufs hw
  unfold served nextOrError
  rw [g4]
  cases (run env bridged next c).2 with
  | none => exact ⟨ws₁, g1, g2, rfl⟩
  | some err =>
    obtain ⟨ws₂, k1, k2, _, k4⟩ := run_recording env false i haccept (env.HTTPErrorHandler err)
      (run env bridged next c).1 (bufferWrite bufs i (concatAll ws₁)) g3
    refine ⟨ws₁ ++ ws₂, ?_, ?_, ?_⟩
    · simp only []; rw [k1, g1, List.append_assoc]
    · simp only []; rw [k2, g2, concatAll_append, String.append_assoc]
    · simp only []; rw [k4, bufferWrite_bufferWrite, concatAll_append]

theorem served_keeps (env : Env) (bridged : Bool) (c : echo.Context) (next : Handler)
    (hnext : next.keepsCarrier env.KCTX)
    (herr : ∀ e, (env.HTTPErrorHandler e).keepsCarrier env.KCTX)
    (hc : ∃ kc, c.request.ctx (CtxKey.kctxType env.KCTX) = some (Val.kctx kc)) :
    ∃ kc, (served env bridged c next).request.ctx (CtxKey.kctxType env.KCTX)
      = some (Val.kctx kc) :=
  nextOrError_keeps env bridged c next hnext herr hc

theorem dumpWriter_recording (c : echo.Context) (hw : c.response.Writer = .real) :
    dumpWriter c = recording c.buffers.length (c.buffers ++ [""]) c := by
  obtain ⟨req, ⟨st, hd, cm, wr⟩, store, pp, qp, bf, wire, wst, wrt⟩ := c
  simp only at hw
  subst hw
  rfl

/-- Source `captureResp` on the server's writer, with a transport that accepts
every write: the state it leaves is the one echo leaves without the recorder,
but for the writer and the new buffer, and the snapshot holds that state's
status and headers and the bytes written, which are the bytes sent. -/
theorem captureResp_served (env : Env) (bridged : Bool) (c : echo.Context) (next : Handler)
    (haccept : ∀ sent p, env.transport sent p = none) (hw : c.response.Writer = .real) :
    (served env bridged c next).wire = c.wire ++ writtenSince c (served env bridged c next) ∧
    captureResp env bridged c next
      = (recording c.buffers.length
            (c.buffers ++ [writtenSince c (served env bridged c next)])
            (served env bridged c next),
         { StatusCode := (served env bridged c next).response.Status
           Header := (served env bridged c next).response.Header
           Body := writtenSince c (served env bridged c next) }) := by
  obtain ⟨ws, g1, g2, g3⟩ :=
    served_recording env bridged c.buffers.length c (c.buffers ++ [""]) next haccept hw
  have hws : writtenSince c (served env bridged c next) = concatAll ws := by
    simp [writtenSince, g1]
  rw [hws]
  refine ⟨g2, ?_⟩
  simp only [captureResp, dumpWriter_recording c hw, g3, bufferWrite_last, String.empty_append]
  simp [recording, getD_last]

theorem captureMWResponse_served (env : Env) (app : keploy.App) (next : Handler)
    (bridged : Bool) (c : echo.Context) (reqBody : String)
    (haccept : ∀ sent p, env.transport sent p = none)
    (hreal : c.response.Writer = .real)
    (hnext : next.keepsCarrier env.KCTX)
    (herr : ∀ e, (env.HTTPErrorHandler e).keepsCarrier env.KCTX)
    (hc : ∃ kc, c.request.ctx (CtxKey.kctxType env.KCTX) = some (Val.kctx kc)) :
    ∃ tcr : keploy.TestCaseReq,
      captureMWResponse env app next bridged c reqBody
        = .ok { c := recording c.buffers.length
                  (c.buffers ++ [writtenSince c (served env bridged c next)])
                  (served env bridged c next)
                app := some { app with captured := app.captured ++ [tcr] }
                err := none } ∧
      tcr.HttpResp
        = { StatusCode := (served env bridged c next).response.Status
            Header := (served env bridged c next).response.Header
            Body := writtenSince c (served env bridged c next) } ∧
      tcr.HttpReq.Body = reqBody := by
  obtain ⟨_, hcap⟩ := captureResp_served env bridged c next haccept hreal
  obtain ⟨kc, hkc⟩ := served_keeps env bridged c next hnext herr hc
  have hkc' : (recording c.buffers.length
      (c.buffers ++ [writtenSince c (served env bridged c next)])
      (served env bridged c next)).request.ctx (CtxKey.kctxType env.KCTX)
        = some (Val.kctx kc) := hkc
  simp only [captureMWResponse, hcap, hkc', urlParamsEcho, pathParamsEcho, pathParamsLoop_pairs,
    Option.map_some']
  exact ⟨_, rfl, rfl, rfl⟩

theorem captureMW_capture_branch (env : Env) (app : keploy.App) (next : Handler)
    (bridged : Bool) (c : echo.Context)
    (hid : headerGet c.request.Header "KEPLOY_TEST_ID" = "")
    (hbody : ∀ body, c.request.Body = some body → body.err = none) :
    NewMiddlewareContextValue (captureMW env (some app) next) bridged c
      = captureMWResponse env app next true (captureContext env c) (bodyRead c) := by
  simp only [NewMiddlewareContextValue, captureMW, ctxSet_header, ctxSet_body, hid, ne_eq,
    not_true_eq_false, if_false]
  cases hb : c.request.Body with
  | none =>
    simp only [captureContext, bodyRead, hb]
    rfl
  | some body =>
    simp only [captureContext, bodyRead, hb, readAll, hbody body hb]
    rfl

/-- C1, as amended: a request handled by `captureMW` behind the context bridge,
with a non-nil app, no `KEPLOY_TEST_ID`, a body that reads without error, the
server's writer on a transport that accepts every write, and neither the
handler nor echo's error handler replacing the request's context carrier.
Exactly one `TestCaseReq` is passed to `app.Capture`. Its `HttpResp` holds the
status and the headers echo's response ends with when the handler is served
without the recorder, and for body the in-order concatenation of the byte
sequences written to the response by the handler and, when it returns an
error, by the error handler; these bytes, in this order, are what the client is
sent, with or without the recorder. Its `HttpReq` has the request body that was
read. The state left is the one of serving the handler without the recorder,
but for the wrapped writer and the recorder's buffer. -/
theorem captureMW_records (env : Env) (app : keploy.App) (next : Handler) (bridged : Bool)
    (c : echo.Context)
    (hid : headerGet c.request.Header "KEPLOY_TEST_ID" = "")
    (hbody : ∀ body, c.request.Body = some body → body.err = none)
    (hreal : c.response.Writer = .real)
    (haccept : ∀ sent p, env.transport sent p = none)
    (hnext : next.keepsCarrier env.KCTX)
    (herr : ∀ e, (env.HTTPErrorHandler e).keepsCarrier env.KCTX) :
    ∃ tcr : keploy.TestCaseReq,
      NewMiddlewareContextValue (captureMW env (some app) next) bridged c
        = .ok { c := recording c.buffers.length
                  (c.buffers ++ [writtenSince c (served env true (captureContext env c) next)])
                  (served env true (captureContext env c) next)
                app := some { app with captured := app.captured ++ [tcr] }
                err := none } ∧
      (served env true (captureContext env c) next).wire
        = c.wire ++ writtenSince c (served env true (captureContext env c) next) ∧
      tcr.HttpResp
        = { StatusCode := (served env true (captureContext env c) next).response.Status
            Header := (served env true (captureContext env c) next).response.Header
            Body := writtenSince c (served env true (captureContext env c) next) } ∧
      tcr.HttpReq.Body = bodyRead c := by
  have hw : (captureContext env c).response.Writer = .real := hreal
  have hc : ∃ kc, (captureContext env c).request.ctx (CtxKey.kctxType env.KCTX)
      = some (Val.kctx kc) :=
    ⟨{ Mode := "capture", TestID := "", Deps := [] },
      by simp [captureContext, resetBody, contextValue.Set, withValue]⟩
  obtain ⟨tcr, h1, h2, h3⟩ := captureMWResponse_served env app next true (captureContext env c)
    (bodyRead c) haccept hw hnext herr hc
  obtain ⟨hwire, _⟩ := captureResp_served env true (captureContext env c) next haccept hw
  exact ⟨tcr, (captureMW_capture_branch env app next bridged c hid hbody).trans h1, hwire, h2, h3⟩

/-- Instance of C1: a request with body `ping` and a handler writing `hi`. -/
theorem captureMW_records_witness :
    ∃ tcr : keploy.TestCaseReq,
      NewMiddlewareContextValue
          (captureMW sampleEnv (some (sampleApp (fun _ => none) (fun _ => []))) helloHandler)
          false (sampleCtx [] (some { data := "ping", err := none }))
        = .ok { c := recording 0 ["hi"]
                  (served sampleEnv true
                    (captureContext sampleEnv (sampleCtx [] (some { data := "ping", err := none })))
                    helloHandler)
                app := some { sampleApp (fun _ => none) (fun _ => []) with captured := [tcr] }
                err := none } ∧
      (served sampleEnv true
          (captureContext sampleEnv (sampleCtx [] (some { data := "ping", err := none })))
          helloHandler).wire = "hi" ∧
      tcr.HttpResp = { StatusCode := 200, Header := [], Body := "hi" } ∧
      tcr.HttpReq.Body = "ping" :=
  captureMW_records sampleEnv (sampleApp (fun _ => none) (fun _ => [])) helloHandler false
    (sampleCtx [] (some { data := "ping", err := none })) rfl
    (fun body h => by cases h; rfl) rfl (fun _ _ => rfl) (fun _ => trivial) (fun _ _ => trivial)

/-- C1 fails as stated. The handler `failingHandler` writes nothing and does not
touch the request's context carrier. With an error handler that replaces the
carrier, `captureMW` passes nothing to `app.Capture` and logs that the keploy
context is missing. With an error handler that writes the error text, the body
captured is `boom`, which the handler did not write. -/
theorem captureMW_error_handler :
    failingHandler.keepsCarrier resetEnv.KCTX ∧
    (∃ o : Outcome,
      NewMiddlewareContextValue
          (captureMW resetEnv (some (sampleApp (fun _ => none) (fun _ => []))) failingHandler)
          false (sampleCtx [] none) = .ok o ∧
      o.app.map (fun a => a.captured) = some [] ∧
      o.app.map (fun a => a.logged) = some ["failed to get keploy context"]) ∧
    (∃ (o : Outcome) (tcr : keploy.TestCaseReq),
      NewMiddlewareContextValue
          (captureMW sampleEnv (some (sampleApp (fun _ => none) (fun _ => []))) failingHandler)
          false (sampleCtx [] none) = .ok o ∧
      o.app.map (fun a => a.captured) = some [tcr] ∧
      tcr.HttpResp.Body = "boom" ∧
      (run sampleEnv true failingHandler
        (captureContext sampleEnv (sampleCtx [] none))).1.written = []) :=
  ⟨trivial, ⟨_, rfl, rfl, rfl⟩, ⟨_, _, rfl, rfl, rfl, rfl⟩⟩

/-! ## Claims on the path and query helpers -/

theorem queryGet_mem (qp : List (String × List String)) (k : String) (vals : List String)
    (h : queryGet qp k = some vals) : (k, vals) ∈ qp := by
  induction qp with
  | nil => simp [queryGet] at h
  | cons e qp ih =>
    obtain ⟨a, b⟩ := e
    simp only [queryGet] at h
    split at h
    · rename_i hk
      simp only [Option.some.injEq] at h
      subst hk; subst h
      exact List.mem_cons_self _ _
    · exact List.mem_cons_of_mem _ (ih h)

theorem flattenTrimmed_eq_flattenRef (ps : List (String × String))
    (qp : List (String × List String)) (name : String)
    (hps : ∀ p ∈ ps, p.2 ≠ "") (hqp : ∀ e ∈ qp, ∀ v ∈ e.2, v ≠ "") :
    flattenTrimmed ps qp name = flattenRef ps qp name := by
  unfold flattenTrimmed flattenRef
  cases hq : queryGet qp name with
  | none => rfl
  | some vals =>
    simp only []
    rw [dropWhile_empty_id]
    intro e he
    rcases List.mem_append.mp he with h | h
    · cases hp : pathValue ps name with
      | none => simp [hp] at h
      | some w =>
        simp only [hp, Option.toList_some, List.mem_singleton] at h
        subst h
        exact hps _ (pathValue_mem ps name e hp)
    · exact hqp _ (queryGet_mem qp name vals hq) e h

/-- C4, as amended: for every list of path parameters and every query multimap,
`urlParamsEcho` returns a map whose entry for a name is the path value if the
name is only a path parameter, and for a name of the query the path value (if
any) followed by the query values, joined with `", "` after the empty strings at
the head of that sequence are dropped; no other name is a key. When no path value and no
query value is empty this is the reference definition, and path `{id: "7"}` with
query `{filter: ["a", "b"]}` gives `{id: "7", filter: "a, b"}`. -/
theorem urlParamsEcho_flatten (ps : List (String × String)) (qp : List (String × List String))
    (hq : (qp.map Prod.fst).Nodup) :
    (∃ r, urlParamsEcho (ps.map Prod.fst) (ps.map Prod.snd) qp = some r ∧
      (∀ name, mapGet r name = flattenTrimmed ps qp name) ∧
      ((∀ p ∈ ps, p.2 ≠ "") → (∀ e ∈ qp, ∀ v ∈ e.2, v ≠ "") →
        ∀ name, mapGet r name = flattenRef ps qp name)) ∧
    urlParamsEcho ["id"] ["7"] [("filter", ["a", "b"])]
      = some [("id", "7"), ("filter", "a, b")] := by
  refine ⟨?_, by decide⟩
  obtain ⟨r, hr, hget⟩ := urlParamsEcho_trimmed ps qp hq
  exact ⟨r, hr, hget, fun hps hqp name =>
    (hget name).trans (flattenTrimmed_eq_flattenRef ps qp name hps hqp)⟩

/-- Instance of C4 with empty strings among the values. -/
theorem urlParamsEcho_flatten_witness :
    ∃ r, urlParamsEcho ([("id", "")].map Prod.fst) ([("id", "")].map Prod.snd)
        [("id", ["", "b", ""]), ("filter", ["a"])] = some r ∧
      (∀ name, mapGet r name
        = flattenTrimmed [("id", "")] [("id", ["", "b", ""]), ("filter", ["a"])] name) ∧
      ((∀ p ∈ [("id", "")], p.2 ≠ "") →
        (∀ e ∈ [("id", ["", "b", ""]), ("filter", ["a"])], ∀ v ∈ e.2, v ≠ "") →
        ∀ name, mapGet r name
          = flattenRef [("id", "")] [("id", ["", "b", ""]), ("filter", ["a"])] name) :=
  (urlParamsEcho_flatten [("id", "")] [("id", ["", "b", ""]), ("filter", ["a"])]
    (by decide)).1

/-- C4 fails as stated: for the query `filter=&filter=b` the code gives
`filter: "b"` where the reference definition joins to `", b"`. -/
theorem urlParamsEcho_drops_empty :
    ¬ ∃ r, urlParamsEcho [] [] [("filter", ["", "b"])] = some r ∧
      ∀ name, mapGet r name = flattenRef [] [("filter", ["", "b"])] name := by
  rintro ⟨r, hr, h⟩
  have hr' : some [("filter", "b")] = some r := hr
  simp only [Option.some.injEq] at hr'
  subst hr'
  have := h "filter"
  revert this
  decide

/-- C10: for a fixed list of path parameters and a query multimap, any two
orders in which the query names are visited give equal result maps: the same
keys, and the same string for every key. -/
theorem urlParamsEcho_order (ps : List (String × String))
    (qp₁ qp₂ : List (String × List String)) (hperm : qp₁.Perm qp₂)
    (hq : (qp₁.map Prod.fst).Nodup) :
    ∃ r₁ r₂, urlParamsEcho (ps.map Prod.fst) (ps.map Prod.snd) qp₁ = some r₁ ∧
      urlParamsEcho (ps.map Prod.fst) (ps.map Prod.snd) qp₂ = some r₂ ∧
      ∀ name, mapGet r₁ name = mapGet r₂ name := by
  have hq₂ : (qp₂.map Prod.fst).Nodup := (hperm.map Prod.fst).nodup_iff.mp hq
  obtain ⟨r₁, hr₁, hget₁⟩ := urlParamsEcho_trimmed ps qp₁ hq
  obtain ⟨r₂, hr₂, hget₂⟩ := urlParamsEcho_trimmed ps qp₂ hq₂
  refine ⟨r₁, r₂, hr₁, hr₂, fun name => ?_⟩
  rw [hget₁, hget₂, flattenTrimmed, flattenTrimmed, queryGet_perm qp₁ qp₂ name hperm hq]

/-- Instance of C10: the two orders of a query with two names. -/
theorem urlParamsEcho_order_witness :
    ∃ r₁ r₂,
      urlParamsEcho ([("id", "7")].map Prod.fst) ([("id", "7")].map Prod.snd)
        [("filter", ["a", "b"]), ("id", ["8"])] = some r₁ ∧
      urlParamsEcho ([("id", "7")].map Prod.fst) ([("id", "7")].map Prod.snd)
        [("id", ["8"]), ("filter", ["a", "b"])] = some r₂ ∧
      ∀ name, mapGet r₁ name = mapGet r₂ name :=
  urlParamsEcho_order [("id", "7")] [("filter", ["a", "b"]), ("id", ["8"])]
    [("id", ["8"]), ("filter", ["a", "b"])] (List.Perm.swap _ _ _) (by decide)

/-- C5: for a map with the one entry `name -> value`, `value` non-empty,
`urlPathEcho` returns the path with every (non-overlapping, left-to-right)
occurrence of `value` replaced by `":"` followed by `name`; in particular
`urlPathEcho("/users/7", {"id": "7"})` is `"/users/:id"`. -/
theorem urlPathEcho_single (path name value : String) (hv : value ≠ "") :
    urlPathEcho path [(name, value)] = replaceEvery path value (":" ++ name) ∧
    urlPathEcho "/users/7" [("id", "7")] = "/users/:id" := by
  refine ⟨?_, by decide⟩
  simp only [urlPathEcho, List.foldl_cons, List.foldl_nil]
  exact replaceEvery_eq path value (":" ++ name) hv

/-- Instance of C5: a value that occurs four times in the path. -/
theorem urlPathEcho_single_witness :
    urlPathEcho "/v7/users/77/7" [("id", "7")]
      = replaceEvery "/v7/users/77/7" "7" (":" ++ "id") ∧
    replaceEvery "/v7/users/77/7" "7" (":" ++ "id") = "/v:id/users/:id:id/:id" :=
  ⟨(urlPathEcho_single "/v7/users/77/7" "id" "7" (by decide)).1, by decide⟩

/-- C6, the code at the failing input: `urlPathEcho` keeps the replacement of
the parameter visited last only, because every round starts again from `url`;
for `"/users/7/orders/9"` with `{id: "7", orderId: "9"}` it returns
`"/users/7/orders/:orderId"` or `"/users/:id/orders/9"`, depending on the order
of the map, and never `"/users/:id/orders/:orderId"`. -/
theorem urlPathEcho_last_only :
    (∀ (url : String) (ps : List (String × String)) (n v : String),
      urlPathEcho url (ps ++ [(n, v)]) = stringsReplace url v (":" ++ n) (-1)) ∧
    urlPathEcho "/users/7/orders/9" [("id", "7"), ("orderId", "9")]
      = "/users/7/orders/:orderId" ∧
    urlPathEcho "/users/7/orders/9" [("orderId", "9"), ("id", "7")]
      = "/users/:id/orders/9" := by
  refine ⟨fun url ps n v => ?_, by decide, by decide⟩
  simp only [urlPathEcho, List.foldl_append, List.foldl_cons, List.foldl_nil]

end integrations
